import Mathlib

/-!
Verification of the stw-mensa-api menu-extraction core (src/menu.rs).

The development shallowly embeds the extraction pipeline of
`MensaMenu::load` (the part after the HTTP fetch), the tag classifier
`MealTag::from_name`, and the price parser `impl FromStr for MealPrice`.

Embedding conventions:
  * Rust `&str` values are Lean `String`s; the string manipulation done by
    the source (`trim`, `split_once(" ")`, `replace(",", ".")`,
    `split("/")`) is re-implemented over the underlying character lists so
    that everything reduces in the kernel. `trim` is modelled on the ASCII
    whitespace characters that occur in practice.
  * The parsed HTML document (produced by the external `scraper` /
    html5ever library) is modelled as a forest of DOM nodes; CSS selection
    (`select`, which yields matching descendants in document order) and
    serialization (`inner_html`, `text()`) are modelled over that forest.
  * Rust `f64` parsing is modelled by its documented grammar, with the
    numeric value carried exactly as a rational (the source's
    floating-point rounding is flagged as an open question by its own
    design notes); `(v * 100.0) as u64` is the saturating truncation
    `fvalCents`.
  * Fallible Rust code (`Result`, `?`) becomes `Except` / `Option` with
    explicit short-circuiting (`mapE`, `mapO`).
-/

/-! ## Character-list string helpers (Rust `str` operations) -/

/-- ASCII whitespace, as used by the inputs this service processes. -/
def isWs (c : Char) : Bool :=
  c = ' ' || c = '\t' || c = '\n' || c = '\r'

/-- Remove leading and trailing whitespace from a character list. -/
def trimChars (cs : List Char) : List Char :=
  ((cs.dropWhile isWs).reverse.dropWhile isWs).reverse

/-- Rust `str::trim`. -/
def trimStr (s : String) : String := ⟨trimChars s.data⟩

/-- Split a character list at the first occurrence of `c`; `none` when `c`
does not occur.  Models Rust `str::split_once`. -/
def splitOnceChars (c : Char) : List Char → Option (List Char × List Char)
  | [] => none
  | x :: xs =>
    if x = c then some ([], xs)
    else (splitOnceChars c xs).map (fun p => (x :: p.1, p.2))

/-- Rust `str::split_once(" ")`. -/
def splitOnceSpace (s : String) : Option (String × String) :=
  (splitOnceChars ' ' s.data).map (fun p => (⟨p.1⟩, ⟨p.2⟩))

/-- Rust `str::replace(",", ".")`. -/
def replaceCommas (s : String) : String :=
  ⟨s.data.map (fun c => if c = ',' then '.' else c)⟩

/-- Worker for `splitOnChar`; `acc` holds the current piece reversed. -/
def splitOnCharAux (c : Char) : List Char → List Char → List (List Char)
  | [], acc => [acc.reverse]
  | x :: xs, acc =>
    if x = c then acc.reverse :: splitOnCharAux c xs []
    else splitOnCharAux c xs (x :: acc)

/-- Rust `str::split('/')` (total: an empty string yields `[""]`). -/
def splitOnChar (c : Char) (s : String) : List String :=
  (splitOnCharAux c s.data []).map (fun cs => ⟨cs⟩)

/-- Join strings with single spaces (Rust `Vec::join(" ")`). -/
def joinSpace : List String → String
  | [] => ""
  | [s] => s
  | s :: rest => s ++ " " ++ joinSpace rest

/-! ## Rust `f64` parsing, by its documented grammar

`str::parse::<f64>` accepts, case-insensitively for the keywords:
`Sign? ( 'inf' | 'infinity' | 'nan' | Number )` with
`Number ::= (Digit+ | Digit+ '.' Digit* | Digit* '.' Digit+) Exp?` and
`Exp ::= ('e' | 'E') Sign? Digit+`.  Every number the grammar accepts is
an exact decimal `± mant * 10 ^ e`, which is the representation used here
(the source's subsequent f64 rounding is flagged as a potential precision
issue by its own design notes; the model computes the decimal exactly). -/

/-- A parsed floating-point value: a finite decimal `± mant * 10 ^ e`, an
infinity, or NaN. -/
inductive FVal where
  | num (neg : Bool) (mant : Nat) (e : Int)
  | inf
  | neginf
  | nan
deriving DecidableEq

/-- Value of a digit list read in base 10. -/
def digitsVal (ds : List Char) : Nat :=
  ds.foldl (fun a c => a * 10 + (c.toNat - 48)) 0

/-- Parse the exponent part (everything after `e`/`E`). -/
def parseExpPart : List Char → Option Int
  | [] => none
  | '+' :: ds =>
    if ds.isEmpty then none
    else if ds.all Char.isDigit then some (Int.ofNat (digitsVal ds)) else none
  | '-' :: ds =>
    if ds.isEmpty then none
    else if ds.all Char.isDigit then some (-(Int.ofNat (digitsVal ds))) else none
  | ds =>
    if ds.all Char.isDigit then some (Int.ofNat (digitsVal ds)) else none

/-- Parse an unsigned decimal number with optional fraction and exponent,
returning mantissa and decimal exponent. -/
def parseNumber (cs : List Char) : Option (Nat × Int) :=
  let intPart := cs.takeWhile Char.isDigit
  let rest := cs.dropWhile Char.isDigit
  match rest with
  | [] => if intPart.isEmpty then none else some (digitsVal intPart, 0)
  | '.' :: rest2 =>
    let fracPart := rest2.takeWhile Char.isDigit
    let rest3 := rest2.dropWhile Char.isDigit
    if intPart.isEmpty && fracPart.isEmpty then none
    else
      let mant := digitsVal (intPart ++ fracPart)
      let fe : Int := -(fracPart.length : Int)
      match rest3 with
      | [] => some (mant, fe)
      | 'e' :: ecs => (parseExpPart ecs).map (fun e => (mant, fe + e))
      | 'E' :: ecs => (parseExpPart ecs).map (fun e => (mant, fe + e))
      | _ => none
  | 'e' :: ecs =>
    if intPart.isEmpty then none
    else (parseExpPart ecs).map (fun e => (digitsVal intPart, e))
  | 'E' :: ecs =>
    if intPart.isEmpty then none
    else (parseExpPart ecs).map (fun e => (digitsVal intPart, e))
  | _ => none

/-- Rust `str::parse::<f64>`, success and exact decimal value. -/
def parseF64 (s : String) : Option FVal :=
  let p : Bool × List Char :=
    match s.data with
    | '+' :: r => (false, r)
    | '-' :: r => (true, r)
    | r => (false, r)
  let neg := p.1
  let lower := p.2.map Char.toLower
  if lower = "inf".data || lower = "infinity".data then
    some (if neg then .neginf else .inf)
  else if lower = "nan".data then some .nan
  else (parseNumber p.2).map (fun me => .num neg me.1 me.2)

/-- `u64::MAX`. -/
def U64MAX : Nat := 18446744073709551615

/-- `mant * 10 ^ (e + 2)` truncated toward zero (the cent value of the
nonnegative decimal `mant * 10 ^ e` multiplied by 100). -/
def decCents (mant : Nat) (e : Int) : Nat :=
  match e + 2 with
  | .ofNat k => mant * 10 ^ k
  | .negSucc k => mant / 10 ^ (k + 1)

/-- Rust `(v * 100.0) as u64`: multiply by 100, truncate toward zero, and
saturate into the `u64` range (negative, NaN ↦ 0; +∞ / overflow ↦
`u64::MAX`). -/
def fvalCents : FVal → Nat
  | .num neg mant e => if neg then 0 else min (decCents mant e) U64MAX
  | .inf => U64MAX
  | .neginf => 0
  | .nan => 0

/-! ## Option / Except traversals (Rust `collect::<Result<Vec<_>, _>>`) -/

/-- Map a fallible function over a list, short-circuiting on the first
`none` (Rust `Iterator::collect` into `Result`/`Option`). -/
def mapO {α β : Type} (f : α → Option β) : List α → Option (List β)
  | [] => some []
  | x :: xs =>
    match f x, mapO f xs with
    | some y, some ys => some (y :: ys)
    | _, _ => none

/-! ## The data model (src/menu.rs lines 14–113) -/

/-- `enum Color` (menu.rs line 15). -/
inductive Color where
  | Green
  | Orange
  | Red
deriving DecidableEq

/-- `enum MealTag` (menu.rs lines 17–29). -/
inductive MealTag where
  | Vegetarian
  | Vegan
  | Fairtrade
  | ClimateFood
  | SustainableFarming
  | SustainableFishing
  | Frozen
  | Co2 (c : Color)
  | WaterUsage (c : Color)
  | Quality (c : Color)
deriving DecidableEq

/-- `MealTag::from_name` (menu.rs lines 32–52): trim, then exact match. -/
def MealTag.from_name (v : String) : Option MealTag :=
  match trimStr v with
  | "gruen" => some (.Quality .Green)
  | "gelb" => some (.Quality .Orange)
  | "rot" => some (.Quality .Red)
  | "vegetarisch" => some .Vegetarian
  | "vegan" => some .Vegan
  | "bio" => some .SustainableFarming
  | "klima" => some .ClimateFood
  | "msc" => some .SustainableFishing
  | "CO2_bewertung_A" => some (.Co2 .Green)
  | "CO2_bewertung_B" => some (.Co2 .Orange)
  | "CO2_bewertung_C" => some (.Co2 .Red)
  | "H2O_bewertung_A" => some (.WaterUsage .Green)
  | "H2O_bewertung_B" => some (.WaterUsage .Orange)
  | "H2O_bewertung_C" => some (.WaterUsage .Red)
  | _ => none

deriving instance DecidableEq for Except

/-- `struct MealPrice` (menu.rs lines 62–67): three amounts in cents. -/
structure MealPrice where
  student : Nat
  medium : Nat
  expensive : Nat
deriving DecidableEq

/-- `impl FromStr for MealPrice` (menu.rs lines 69–88): trim, split at the
first space and discard the label, replace commas with periods, split on
`/`, parse each piece as `f64` and convert to cents, and require at least
three pieces. -/
def MealPrice.from_str (s : String) : Except Unit MealPrice :=
  match splitOnceSpace (trimStr s) with
  | none => .error ()
  | some pr =>
    match mapO (fun p => (parseF64 p).map fvalCents) (splitOnChar '/' (replaceCommas pr.2)) with
    | none => .error ()
    | some cents =>
      match cents with
      | c0 :: c1 :: c2 :: _ => .ok ⟨c0, c1, c2⟩
      | _ => .error ()

/-! ## The parsed HTML document

The source hands the fetched text to `scraper::Html::parse_document` and
then walks the resulting tree with CSS selectors.  The parsed document is
modelled as a forest of nodes; the selectors used by the source
(`.splGroupWrapper`, `.splGroup`, `.splMeal`, `span.bold`,
`div.text-right`, `span[role = 'tooltip']`) only constrain the tag name,
one class token, and one attribute, which is what `Selector` captures.
`select` on an `ElementRef` yields the matching strict descendants in
document order; `select` on the document also includes the roots. -/

/-- A DOM node: an element with tag name, attributes and children, or a
text node. -/
inductive Node where
  | elem (tag : String) (attrs : List (String × String)) (children : List Node)
  | text (s : String)

/-- The class tokens of an attribute list (the `class` attribute split on
whitespace). -/
def classTokens (attrs : List (String × String)) : List String :=
  match attrs.lookup "class" with
  | none => []
  | some c => (c.data.splitOnP isWs).map (fun cs => (⟨cs⟩ : String))

/-- The fragment of CSS selectors the source uses: an optional tag name,
an optional class token, and an optional exact attribute requirement. -/
structure Selector where
  tagName : Option String
  clsName : Option String
  attrReq : Option (String × String)

/-- Does an element with tag `t` and attributes `a` match selector `q`? -/
def matchesSel (q : Selector) (t : String) (a : List (String × String)) : Bool :=
  (match q.tagName with | none => true | some tn => t = tn) &&
  (match q.clsName with | none => true | some cn => (classTokens a).contains cn) &&
  (match q.attrReq with | none => true | some ar => a.lookup ar.1 = some ar.2)

mutual

/-- All elements of the subtree rooted at a node (the node included) that
match `q`, in document order. -/
def selectIncl (q : Selector) : Node → List Node
  | .text _ => []
  | .elem t a cs =>
    (if matchesSel q t a then [Node.elem t a cs] else []) ++ selectMany q cs

/-- All matching elements of a forest, in document order. -/
def selectMany (q : Selector) : List Node → List Node
  | [] => []
  | n :: ns => selectIncl q n ++ selectMany q ns

end

/-- `ElementRef::select`: matching strict descendants, in document order. -/
def selectDesc (q : Selector) : Node → List Node
  | .text _ => []
  | .elem _ _ cs => selectMany q cs

mutual

/-- The strings of all descendant text nodes, in document order
(`ElementRef::text`). -/
def textsOf : Node → List String
  | .text s => [s]
  | .elem _ _ cs => textsMany cs

/-- Text strings of a forest, in document order. -/
def textsMany : List Node → List String
  | [] => []
  | n :: ns => textsOf n ++ textsMany ns

end

/-- `text_content` (menu.rs lines 10–12): trim every text node, join the
pieces with single spaces, and trim the result. -/
def text_content (n : Node) : String :=
  trimStr (joinSpace ((textsOf n).map trimStr))

/-- Escape `&`, `<`, `>` in text, as the html5ever serializer does. -/
def escapeText (s : String) : String :=
  ⟨s.data.flatMap (fun c =>
    if c = '&' then "&amp;".data
    else if c = '<' then "&lt;".data
    else if c = '>' then "&gt;".data
    else [c])⟩

/-- Serialize one attribute as ` name="value"`. -/
def serializeAttr (a : String × String) : String :=
  " " ++ a.1 ++ "=\"" ++ a.2 ++ "\""

mutual

/-- Serialize a node back to HTML text. -/
def serializeNode : Node → String
  | .text s => escapeText s
  | .elem t a cs =>
    "<" ++ t ++ String.join (a.map serializeAttr) ++ ">" ++
      serializeMany cs ++ "</" ++ t ++ ">"

/-- Serialize a forest back to HTML text. -/
def serializeMany : List Node → String
  | [] => ""
  | n :: ns => serializeNode n ++ serializeMany ns

end

/-- `ElementRef::inner_html`: the serialization of the children. -/
def inner_html : Node → String
  | .text _ => ""
  | .elem _ _ cs => serializeMany cs

/-! ## The extraction pipeline (menu.rs lines 133–180)

`MensaMenu::load` first performs the HTTP fetch (an external collaborator,
not modelled) and then runs the pure extraction below on the parsed
document. -/

/-- The caller-supplied date (`chrono::NaiveDate`); the extractor only
passes it through. -/
structure NaiveDate where
  year : Int
  month : Nat
  day : Nat
deriving DecidableEq

/-- `struct Meal` (menu.rs lines 55–60).  `tags` is a `Vec<MealTag>` in
the source: an ordered list, not a set. -/
structure Meal where
  name : String
  price : MealPrice
  tags : List MealTag

/-- `struct MealGroup` (menu.rs lines 90–94). -/
structure MealGroup where
  name : String
  meals : List Meal

/-- `struct MensaMenu` (menu.rs lines 96–100). -/
structure MensaMenu where
  date : NaiveDate
  groups : List MealGroup

/-- `enum MenuError` (menu.rs lines 102–113).  `Request` wraps a transport
error of the excluded fetch step; its payload is not modelled. -/
inductive MenuError where
  | Request
  | CategoryNameNotFound
  | MealNameNotFound
  | MealPriceNotFound
deriving DecidableEq

/-- `.splGroupWrapper` (menu.rs line 135). -/
def mealListSel : Selector := ⟨none, some "splGroupWrapper", none⟩

/-- `.splGroup` (menu.rs line 136). -/
def groupNameSel : Selector := ⟨none, some "splGroup", none⟩

/-- `.splMeal` (menu.rs line 137). -/
def mealSel : Selector := ⟨none, some "splMeal", none⟩

/-- `span.bold` (menu.rs line 139). -/
def mealNameSel : Selector := ⟨some "span", some "bold", none⟩

/-- `div.text-right` (menu.rs line 140). -/
def priceSel : Selector := ⟨some "div", some "text-right", none⟩

/-- `span[role = 'tooltip']` (menu.rs line 141). -/
def tagSel : Selector := ⟨some "span", none, some ("role", "tooltip")⟩

/-- Map a fallible step over a list, short-circuiting on the first error:
the `for … { … ?; push }` loops of `MensaMenu::load`. -/
def mapE {α β : Type} (f : α → Except MenuError β) :
    List α → Except MenuError (List β)
  | [] => .ok []
  | x :: xs =>
    match f x with
    | .error e => .error e
    | .ok y =>
      match mapE f xs with
      | .error e => .error e
      | .ok ys => .ok (y :: ys)

/-- One meal candidate (menu.rs lines 157–175): the first `span.bold`
descendant gives the name via `text_content` (else `MealNameNotFound`);
the tooltip spans are classified and the recognized tags collected in
document order; the first `div.text-right` descendant gives the price
text (else `MealPriceNotFound`), which must parse (else
`MealPriceNotFound`). -/
def extractMeal (meal : Node) : Except MenuError Meal :=
  match selectDesc mealNameSel meal with
  | [] => .error .MealNameNotFound
  | name_field :: _ =>
    match selectDesc priceSel meal with
    | [] => .error .MealPriceNotFound
    | price_field :: _ =>
      match MealPrice.from_str (text_content price_field) with
      | .error _ => .error .MealPriceNotFound
      | .ok price =>
        .ok ⟨text_content name_field, price,
          (selectDesc tagSel meal).filterMap
            (fun v => MealTag.from_name (inner_html v))⟩

/-- One group candidate (menu.rs lines 147–178): the first `.splGroup`
descendant's inner HTML is the name (else `CategoryNameNotFound`); every
`.splMeal` descendant is extracted, in document order. -/
def extractGroup (group : Node) : Except MenuError MealGroup :=
  match selectDesc groupNameSel group with
  | [] => .error .CategoryNameNotFound
  | label :: _ =>
    match mapE extractMeal (selectDesc mealSel group) with
    | .error e => .error e
    | .ok meals => .ok ⟨inner_html label, meals⟩

/-- The extraction pipeline of `MensaMenu::load` after the fetch
(menu.rs lines 133–180): every `.splGroupWrapper` element of the document
is extracted, in document order, and the supplied date is attached. -/
def extract (doc : List Node) (date : NaiveDate) : Except MenuError MensaMenu :=
  match mapE extractGroup (selectMany mealListSel doc) with
  | .error e => .error e
  | .ok groups => .ok ⟨date, groups⟩

/-! ## Specification-side definitions

These follow the wording of the specification (not the source); the
theorems below compare them with the source functions. -/

/-- Modelled from the spec: the fixed 14-entry tag-code table of §4.1,
`code ↦ tag`, defaulting to no result. -/
def specTagTable (c : String) : Option MealTag :=
  if c = "gruen" then some (.Quality .Green)
  else if c = "gelb" then some (.Quality .Orange)
  else if c = "rot" then some (.Quality .Red)
  else if c = "vegetarisch" then some .Vegetarian
  else if c = "vegan" then some .Vegan
  else if c = "bio" then some .SustainableFarming
  else if c = "klima" then some .ClimateFood
  else if c = "msc" then some .SustainableFishing
  else if c = "CO2_bewertung_A" then some (.Co2 .Green)
  else if c = "CO2_bewertung_B" then some (.Co2 .Orange)
  else if c = "CO2_bewertung_C" then some (.Co2 .Red)
  else if c = "H2O_bewertung_A" then some (.WaterUsage .Green)
  else if c = "H2O_bewertung_B" then some (.WaterUsage .Orange)
  else if c = "H2O_bewertung_C" then some (.WaterUsage .Red)
  else none

/-- Modelled from the spec: the failure condition for price parsing as
claimed (no trimming step): the string contains no space, or splitting the
part after the first space on `/` (with commas replaced by periods, per
the parsing procedure) yields fewer than three pieces, or some piece fails
to parse as a decimal number. -/
def specPriceFailsStated (s : String) : Bool :=
  match splitOnceSpace s with
  | none => true
  | some pr =>
    let ps := splitOnChar '/' (replaceCommas pr.2)
    if ps.length < 3 then true else ps.any (fun p => (parseF64 p).isNone)

/-- The failure condition of the amended claim: as `specPriceFailsStated`,
but applied to the whitespace-trimmed string, as the source does. -/
def specPriceFails (s : String) : Bool :=
  match splitOnceSpace (trimStr s) with
  | none => true
  | some pr =>
    let ps := splitOnChar '/' (replaceCommas pr.2)
    if ps.length < 3 then true else ps.any (fun p => (parseF64 p).isNone)

/-! ## Traversal lemmas -/

/-- `mapO` returns `none` exactly when some element fails. -/
theorem mapO_eq_none_iff {α β : Type} (f : α → Option β) (l : List α) :
    mapO f l = none ↔ l.any (fun x => (f x).isNone) = true := by
  induction l with
  | nil => simp [mapO]
  | cons x xs ih =>
    cases hfx : f x <;> cases hm : mapO f xs <;>
      simp_all [mapO, List.any_cons]


theorem mapO_some_length {α β : Type} {f : α → Option β} {l : List α}
    {ys : List β} (h : mapO f l = some ys) : ys.length = l.length := by
  induction l generalizing ys with
  | nil =>
    simp only [mapO] at h
    cases h
    rfl
  | cons x xs ih =>
    simp only [mapO] at h
    cases hfx : f x with
    | none => rw [hfx] at h; exact absurd h (by simp)
    | some y =>
      rw [hfx] at h
      cases hm : mapO f xs with
      | none => rw [hm] at h; exact absurd h (by simp)
      | some zs =>
        rw [hm] at h
        cases h
        simp [ih hm]

theorem mapO_map_comp {α β γ : Type} (f : α → Option β) (g : β → γ)
    (l : List α) :
    mapO (fun x => (f x).map g) l = (mapO f l).map (fun ys => ys.map g) := by
  induction l with
  | nil => rfl
  | cons x xs ih =>
    cases hfx : f x <;> cases hm : mapO f xs <;>
      simp_all [mapO, Option.map]

theorem from_str_error_iff_specPriceFails (s : String) :
    MealPrice.from_str s = .error () ↔ specPriceFails s = true := by
  unfold MealPrice.from_str specPriceFails
  cases hsp : splitOnceSpace (trimStr s) with
  | none => simp
  | some pr =>
    simp only
    rw [mapO_map_comp parseF64 fvalCents]
    cases hm : mapO parseF64 (splitOnChar '/' (replaceCommas pr.2)) with
    | none =>
      have hany := (mapO_eq_none_iff parseF64
        (splitOnChar '/' (replaceCommas pr.2))).mp hm
      simp [Option.map, hany]
    | some vs =>
      have hlen := mapO_some_length hm
      have hany : (splitOnChar '/' (replaceCommas pr.2)).any
          (fun p => (parseF64 p).isNone) = false := by
        rcases h : (splitOnChar '/' (replaceCommas pr.2)).any
            (fun p => (parseF64 p).isNone) with _ | _
        · rfl
        · exact absurd ((mapO_eq_none_iff _ _).mpr h) (by simp [hm])
      rcases vs with _ | ⟨a, _ | ⟨b, _ | ⟨c, t⟩⟩⟩ <;>
        simp_all [Option.map] <;> omega

theorem from_str_extra_pieces_ignored (s lab rest : String)
    (ps : List String) (vs : List FVal)
    (h1 : splitOnceSpace (trimStr s) = some (lab, rest))
    (h2 : splitOnChar '/' (replaceCommas rest) = ps)
    (h3 : 3 < ps.length)
    (h4 : mapO parseF64 ps = some vs) :
    ∃ v0 v1 v2 t, vs = v0 :: v1 :: v2 :: t ∧
      MealPrice.from_str s =
        .ok ⟨fvalCents v0, fvalCents v1, fvalCents v2⟩ := by
  have hlen := mapO_some_length h4
  rcases vs with _ | ⟨v0, _ | ⟨v1, _ | ⟨v2, t⟩⟩⟩
  · simp at hlen; omega
  · simp at hlen; omega
  · simp at hlen; omega
  · refine ⟨v0, v1, v2, t, rfl, ?_⟩
    unfold MealPrice.from_str
    rw [h1]
    simp only
    rw [h2, mapO_map_comp parseF64 fvalCents, h4]
    rfl

/-! ## Claims about the tag classifier and the price parser -/

/-- C2: the tag classifier first trims surrounding whitespace and then
matches the trimmed string case-sensitively against the fixed 14-entry
table of §4.1; every trimmed string equal to a table code yields exactly
the specified tag, and every other string (including the empty string and
strings differing only in case) yields no result. -/
theorem from_name_eq_specTagTable (s : String) :
    MealTag.from_name s = specTagTable (trimStr s) := by
  unfold MealTag.from_name specTagTable
  split <;> simp_all

/-- C3: the two concrete price strings of §8 parse to exactly the
specified cent amounts. -/
theorem from_str_price_examples :
    MealPrice.from_str "Preis 2,50/3,80/4,90" = .ok ⟨250, 380, 490⟩ ∧
    MealPrice.from_str "x 1/2/3" = .ok ⟨100, 200, 300⟩ := by
  constructor <;> decide

/-- C4 counterexample: the claimed failure condition (which does not trim
the input before looking for the first space) holds of `" x 1/2/3"` — the
piece `"x 1"` fails numeric parsing — yet the source parser trims first
and succeeds, so parsing does not fail exactly when the claimed condition
holds. -/
theorem from_str_stated_failure_counterexample :
    specPriceFailsStated " x 1/2/3" = true ∧
    MealPrice.from_str " x 1/2/3" = .ok ⟨100, 200, 300⟩ := by
  constructor <;> decide

/-- C10 witness: `"x 1/2/3/4"` has four pieces; the first three yield
100, 200, 300 cents and the fourth is ignored. -/
theorem from_str_extra_pieces_ignored_witness :
    ∃ v0 v1 v2 t,
      [FVal.num false 1 0, FVal.num false 2 0,
        FVal.num false 3 0, FVal.num false 4 0] = v0 :: v1 :: v2 :: t ∧
      MealPrice.from_str "x 1/2/3/4" =
        .ok ⟨fvalCents v0, fvalCents v1, fvalCents v2⟩ :=
  from_str_extra_pieces_ignored "x 1/2/3/4" "x" "1/2/3/4"
    ["1", "2", "3", "4"]
    [FVal.num false 1 0, FVal.num false 2 0,
      FVal.num false 3 0, FVal.num false 4 0]
    (by decide) (by decide) (by decide) (by decide)

/-! ## Lemmas about the short-circuiting loop `mapE` -/

/-- A successful `mapE` preserves the length. -/
theorem mapE_ok_length {α β : Type} {f : α → Except MenuError β}
    {l : List α} {ys : List β} (h : mapE f l = .ok ys) :
    ys.length = l.length := by
  induction l generalizing ys with
  | nil => unfold mapE at h; cases h; rfl
  | cons x xs ih =>
    unfold mapE at h
    rcases hfx : f x with ef | y
    · rw [hfx] at h; cases h
    · rw [hfx] at h
      rcases hm : mapE f xs with e2 | zs
      · rw [hm] at h; cases h
      · rw [hm] at h; cases h; simp [ih hm]

/-- A successful `mapE` applies `f` position-wise. -/
theorem mapE_ok_get {α β : Type} {f : α → Except MenuError β} :
    ∀ {l : List α} {ys : List β}, mapE f l = .ok ys →
      ∀ i (h1 : i < l.length) (h2 : i < ys.length),
        f (l.get ⟨i, h1⟩) = .ok (ys.get ⟨i, h2⟩) := by
  intro l
  induction l with
  | nil => intro ys h i h1 h2; exact absurd h1 (by simp)
  | cons x xs ih =>
    intro ys h i h1 h2
    unfold mapE at h
    rcases hfx : f x with ef | y
    · rw [hfx] at h; cases h
    · rw [hfx] at h
      rcases hm : mapE f xs with e2 | zs
      · rw [hm] at h; cases h
      · rw [hm] at h; cases h
        cases i with
        | zero => simpa using hfx
        | succ j =>
          exact ih hm j (Nat.lt_of_succ_lt_succ h1) (Nat.lt_of_succ_lt_succ h2)

/-- If one list element fails, the whole `mapE` fails. -/
theorem mapE_error_of_mem {α β : Type} {f : α → Except MenuError β}
    {l : List α} {x : α} {e : MenuError} (hx : x ∈ l)
    (he : f x = .error e) : ∃ e2, mapE f l = .error e2 := by
  induction l with
  | nil => cases hx
  | cons y ys ih =>
    cases hx with
    | head =>
      refine ⟨e, ?_⟩
      unfold mapE
      rw [he]
    | tail _ hx2 =>
      obtain ⟨e2, he2⟩ := ih hx2
      unfold mapE
      rcases hfy : f y with ef | vy
      · exact ⟨ef, rfl⟩
      · rw [he2]; exact ⟨e2, rfl⟩

/-- A failing `mapE` reports the error of one of the list elements. -/
theorem mapE_error_src {α β : Type} {f : α → Except MenuError β} :
    ∀ {l : List α} {e : MenuError}, mapE f l = .error e →
      ∃ x ∈ l, f x = .error e := by
  intro l
  induction l with
  | nil => intro e h; unfold mapE at h; cases h
  | cons y ys ih =>
    intro e h
    unfold mapE at h
    rcases hfy : f y with ef | vy
    · rw [hfy] at h
      cases h
      exact ⟨y, List.mem_cons_self y ys, hfy⟩
    · rw [hfy] at h
      rcases hm : mapE f ys with e2 | zs
      · rw [hm] at h
        cases h
        obtain ⟨x, hx, hfx⟩ := ih hm
        exact ⟨x, List.mem_cons_of_mem y hx, hfx⟩
      · rw [hm] at h; cases h

/-! ## The failure conditions of the extraction pipeline -/

/-- A group wrapper lacking its label element (`.splGroup`). -/
def groupLacksLabel (g : Node) : Prop := selectDesc groupNameSel g = []

/-- A meal entry lacking its name element (`span.bold`). -/
def mealLacksName (m : Node) : Prop := selectDesc mealNameSel m = []

/-- A meal entry lacking its price element (`div.text-right`), or whose
price text fails the parsing rule. -/
def mealPriceBad (m : Node) : Prop :=
  selectDesc priceSel m = [] ∨
  ∃ p rest, selectDesc priceSel m = p :: rest ∧
    MealPrice.from_str (text_content p) = .error ()

/-- Some group wrapper lacks its label, or some meal entry within a group
wrapper lacks its name element, or lacks its price element, or its price
text fails the parsing rule. -/
def hasExtractionFailure (doc : List Node) : Prop :=
  ∃ g ∈ selectMany mealListSel doc,
    groupLacksLabel g ∨
    ∃ m ∈ selectDesc mealSel g, mealLacksName m ∨ mealPriceBad m

/-- A meal whose name or price is missing or malformed fails. -/
theorem extractMeal_fails {m : Node}
    (h : mealLacksName m ∨ mealPriceBad m) :
    ∃ e, extractMeal m = .error e := by
  unfold extractMeal
  split
  · exact ⟨.MealNameNotFound, rfl⟩
  · split
    · exact ⟨.MealPriceNotFound, rfl⟩
    · split
      · exact ⟨.MealPriceNotFound, rfl⟩
      · exfalso
        rcases h with h1 | h2 | ⟨p2, r2, hp2, he2⟩
        · simp_all [mealLacksName]
        · simp_all
        · simp_all

/-- Any error `extractMeal` produces is about the meal name or price. -/
theorem extractMeal_error_kind {m : Node} {e : MenuError}
    (h : extractMeal m = .error e) :
    e = .MealNameNotFound ∨ e = .MealPriceNotFound := by
  unfold extractMeal at h
  split at h
  · cases h; exact Or.inl rfl
  · split at h
    · cases h; exact Or.inr rfl
    · split at h
      · cases h; exact Or.inr rfl
      · cases h

/-- Any error `extractGroup` produces is one of the three terminal
extraction errors. -/
theorem extractGroup_error_kind {g : Node} {e : MenuError}
    (h : extractGroup g = .error e) :
    e = .CategoryNameNotFound ∨ e = .MealNameNotFound ∨
      e = .MealPriceNotFound := by
  unfold extractGroup at h
  split at h
  · cases h; exact Or.inl rfl
  · split at h
    · rename_i e2 heq
      cases h
      obtain ⟨x, _, hfx⟩ := mapE_error_src heq
      exact Or.inr (extractMeal_error_kind hfx)
    · cases h

/-- A group with a failing meal, or without a label, fails. -/
theorem extractGroup_fails {g : Node}
    (h : groupLacksLabel g ∨
      ∃ m ∈ selectDesc mealSel g, mealLacksName m ∨ mealPriceBad m) :
    ∃ e, extractGroup g = .error e := by
  unfold extractGroup
  split
  · exact ⟨.CategoryNameNotFound, rfl⟩
  · rcases h with hlack | ⟨m, hm, hmf⟩
    · exfalso; simp_all [groupLacksLabel]
    · obtain ⟨e, he⟩ := extractMeal_fails hmf
      obtain ⟨e2, he2⟩ := mapE_error_of_mem hm he
      rw [he2]
      exact ⟨e2, rfl⟩

/-- Decomposition of a successful `extractMeal`: the name element and the
price element are present, the price text parses, and the meal is built
from them together with the classified tooltip codes. -/
theorem extractMeal_ok_parts {m : Node} {meal : Meal}
    (h : extractMeal m = .ok meal) :
    ∃ nf nrest p prest price,
      selectDesc mealNameSel m = nf :: nrest ∧
      selectDesc priceSel m = p :: prest ∧
      MealPrice.from_str (text_content p) = .ok price ∧
      meal = ⟨text_content nf, price,
        (selectDesc tagSel m).filterMap
          (fun v => MealTag.from_name (inner_html v))⟩ := by
  unfold extractMeal at h
  split at h
  · cases h
  · split at h
    · cases h
    · split at h
      · cases h
      · injection h with h2
        exact ⟨_, _, _, _, _, by assumption, by assumption, by assumption,
          h2.symm⟩

/-- Decomposition of a successful `extractGroup`: its meals are the
position-wise extraction of its meal-marker elements. -/
theorem extractGroup_ok_parts {g : Node} {grp : MealGroup}
    (h : extractGroup g = .ok grp) :
    mapE extractMeal (selectDesc mealSel g) = .ok grp.meals := by
  unfold extractGroup at h
  split at h
  · cases h
  · split at h
    · cases h
    · injection h with h2
      rw [← h2]
      rename_i meals hmeals
      exact hmeals

/-! ## Claims about the extraction pipeline -/

/-- C1: if any group wrapper lacks its label element, or any meal entry
lacks its name element, or lacks its price element or its price text
fails the parsing rule, the whole extraction returns one of the three
terminal errors and no menu value at all — there is no partial result. -/
theorem extract_fail_fast (doc : List Node) (d : NaiveDate)
    (h : hasExtractionFailure doc) :
    (∀ m, extract doc d ≠ .ok m) ∧
    ∃ e, extract doc d = .error e ∧
      (e = .CategoryNameNotFound ∨ e = .MealNameNotFound ∨
        e = .MealPriceNotFound) := by
  obtain ⟨g, hg, hfail⟩ := h
  obtain ⟨e, he⟩ := extractGroup_fails hfail
  obtain ⟨e2, he2⟩ := mapE_error_of_mem hg he
  have hx : extract doc d = .error e2 := by
    unfold extract
    rw [he2]
  refine ⟨?_, e2, hx, ?_⟩
  · intro m hmm
    rw [hx] at hmm
    cases hmm
  · obtain ⟨g2, _, hg2⟩ := mapE_error_src he2
    exact extractGroup_error_kind hg2

/-- A sample date (the extractor only passes the date through). -/
def exDate : NaiveDate := ⟨2024, 5, 17⟩

/-- A document whose single group wrapper has no label element. -/
def noLabelDoc : List Node :=
  [.elem "div" [("class", "splGroupWrapper")] []]

/-- C1 witness: the label-less wrapper aborts the whole extraction with
one of the three terminal errors. -/
theorem extract_fail_fast_witness :
    (∀ m, extract noLabelDoc exDate ≠ .ok m) ∧
    ∃ e, extract noLabelDoc exDate = .error e ∧
      (e = .CategoryNameNotFound ∨ e = .MealNameNotFound ∨
        e = .MealPriceNotFound) :=
  extract_fail_fast noLabelDoc exDate
    ⟨Node.elem "div" [("class", "splGroupWrapper")] [],
      List.Mem.head _, Or.inl rfl⟩

deriving instance DecidableEq for Meal
deriving instance DecidableEq for MealGroup
deriving instance DecidableEq for MensaMenu

/-- A meal entry whose markup carries the recognized tooltip code
`"vegan"` twice. -/
def dupTagMeal : Node :=
  .elem "div" [("class", "splMeal")] [
    .elem "span" [("class", "bold")] [.text "N"],
    .elem "span" [("role", "tooltip")] [.text "vegan"],
    .elem "span" [("role", "tooltip")] [.text "vegan"],
    .elem "div" [("class", "text-right")] [.text "x 1/2/3"]]

/-- A document containing `dupTagMeal` in a labelled group wrapper. -/
def dupTagDoc : List Node :=
  [.elem "div" [("class", "splGroupWrapper")] [
    .elem "div" [("class", "splGroup")] [.text "G"], dupTagMeal]]

/-- C5 counterexample: a meal whose markup carries two tooltip spans with
the same recognized code `"vegan"` yields the tag `Vegan` twice — the tag
collection is a `Vec` in the source and duplicates do not collapse, so it
does not contain exactly one entry for that tag. -/
theorem extract_duplicate_tags_counterexample :
    extract dupTagDoc exDate =
      .ok ⟨exDate, [⟨"G", [⟨"N", ⟨100, 200, 300⟩, [.Vegan, .Vegan]⟩]⟩]⟩ ∧
    List.count MealTag.Vegan [MealTag.Vegan, MealTag.Vegan] ≠ 1 := by
  constructor <;> decide

/-- C5 (amended): an extracted meal's tag collection is the list of
classified codes of its tooltip spans in document order; duplicates are
retained, so equal recognized codes contribute one entry each. -/
theorem extractMeal_tags_in_order (m : Node) (meal : Meal)
    (h : extractMeal m = .ok meal) :
    meal.tags = (selectDesc tagSel m).filterMap
      (fun v => MealTag.from_name (inner_html v)) := by
  obtain ⟨nf, nrest, p, prest, price, _, _, _, hmeal⟩ := extractMeal_ok_parts h
  rw [hmeal]

/-- C5 witness: the duplicate-tag meal extracts with tags `[Vegan,
Vegan]`, which is the in-order classification of its tooltip spans. -/
theorem extractMeal_tags_in_order_witness :
    (⟨"N", ⟨100, 200, 300⟩, [.Vegan, .Vegan]⟩ : Meal).tags =
      (selectDesc tagSel dupTagMeal).filterMap
        (fun v => MealTag.from_name (inner_html v)) :=
  extractMeal_tags_in_order dupTagMeal
    ⟨"N", ⟨100, 200, 300⟩, [.Vegan, .Vegan]⟩ (by decide)

/-- A document whose single meal has a name element with no text. -/
def emptyNameDoc : List Node :=
  [.elem "div" [("class", "splGroupWrapper")] [
    .elem "div" [("class", "splGroup")] [.text "Soup"],
    .elem "div" [("class", "splMeal")] [
      .elem "span" [("class", "bold")] [],
      .elem "div" [("class", "text-right")] [.text "x 1/2/3"]]]]

/-- C6 counterexample: when the name element is present but contains no
text, extraction succeeds and produces a meal whose name is the empty
string — the extractor does not guarantee non-empty names. -/
theorem extract_empty_name_counterexample :
    extract emptyNameDoc exDate =
      .ok ⟨exDate, [⟨"Soup", [⟨"", ⟨100, 200, 300⟩, []⟩]⟩]⟩ ∧
    ("" : String).isEmpty = true := by
  constructor <;> decide

/-- C6 (amended): a meal entry lacking its name element fails with
`MealNameNotFound`; on success every meal's name is the
whitespace-normalized text of its first name element — which is the empty
string when that element has no text. -/
theorem extract_meal_name_rule (m : Node) :
    (selectDesc mealNameSel m = [] →
      extractMeal m = .error .MealNameNotFound) ∧
    (∀ meal, extractMeal m = .ok meal →
      ∃ nf rest, selectDesc mealNameSel m = nf :: rest ∧
        meal.name = text_content nf) := by
  constructor
  · intro h
    unfold extractMeal
    split
    · rfl
    · rename_i heq
      simp_all
  · intro meal h
    obtain ⟨nf, nrest, p, prest, price, hn, _, _, hmeal⟩ :=
      extractMeal_ok_parts h
    exact ⟨nf, nrest, hn, by rw [hmeal]⟩

/-- C6 witness: a meal entry with no `span.bold` descendant fails with
`MealNameNotFound`. -/
theorem extract_meal_name_rule_witness :
    extractMeal (Node.elem "div" [("class", "splMeal")] []) =
      .error .MealNameNotFound :=
  (extract_meal_name_rule (Node.elem "div" [("class", "splMeal")] [])).1 rfl

/-- C7: on a successful extraction the menu's groups correspond
one-to-one, in order, to the document's group-wrapper elements in
document order, and each group's meals correspond one-to-one, in order,
to that wrapper's meal-marker elements in document order — no
reordering, insertion, or omission. -/
theorem extract_preserves_order (doc : List Node) (d : NaiveDate)
    (menu : MensaMenu) (ws : List Node)
    (h : extract doc d = .ok menu)
    (hw : selectMany mealListSel doc = ws) :
    menu.groups.length = ws.length ∧
    ∀ i (hi : i < ws.length) (hg : i < menu.groups.length),
      extractGroup (ws.get ⟨i, hi⟩) = .ok (menu.groups.get ⟨i, hg⟩) ∧
      ∀ ms, selectDesc mealSel (ws.get ⟨i, hi⟩) = ms →
        (menu.groups.get ⟨i, hg⟩).meals.length = ms.length ∧
        ∀ j (hj : j < ms.length)
            (hm : j < (menu.groups.get ⟨i, hg⟩).meals.length),
          extractMeal (ms.get ⟨j, hj⟩) =
            .ok ((menu.groups.get ⟨i, hg⟩).meals.get ⟨j, hm⟩) := by
  subst hw
  unfold extract at h
  rcases hE : mapE extractGroup (selectMany mealListSel doc) with e | gs <;>
    rw [hE] at h
  · cases h
  · cases h
    refine ⟨mapE_ok_length hE, ?_⟩
    intro i hi hg
    have h1 := mapE_ok_get hE i hi hg
    refine ⟨h1, ?_⟩
    intro ms hms
    have h2 := extractGroup_ok_parts h1
    rw [hms] at h2
    exact ⟨mapE_ok_length h2, fun j hj hm => mapE_ok_get h2 j hj hm⟩

/-- A complete one-group, one-meal wrapper. -/
def fullWrapper : Node :=
  .elem "div" [("class", "splGroupWrapper")] [
    .elem "div" [("class", "splGroup")] [.text "Tagesgericht"],
    .elem "div" [("class", "splMeal")] [
      .elem "span" [("class", "bold")] [.text " Pasta ", .text "Bolognese"],
      .elem "span" [("role", "tooltip")] [.text "klima"],
      .elem "span" [("role", "tooltip")] [.text "unknowncode"],
      .elem "div" [("class", "text-right")] [.text "Preis 2,50/3,80/4,90"]]]

/-- A document holding just `fullWrapper`. -/
def fullDoc : List Node := [fullWrapper]

/-- The menu extracted from `fullDoc`. -/
def fullMenu : MensaMenu :=
  ⟨exDate, [⟨"Tagesgericht",
    [⟨"Pasta Bolognese", ⟨250, 380, 490⟩, [.ClimateFood]⟩]⟩]⟩

/-- C7 witness: the one-group document extracts to a one-group menu. -/
theorem extract_preserves_order_witness :
    fullMenu.groups.length = [fullWrapper].length :=
  (extract_preserves_order fullDoc exDate fullMenu [fullWrapper]
    (by decide) rfl).1

/-- C8: the extraction pipeline is a pure function — two runs on the same
parsed document with the same supplied date produce structurally equal
results (same success or error outcome, and on success the same menu). -/
theorem extract_deterministic (doc : List Node) (d : NaiveDate)
    (r1 r2 : Except MenuError MensaMenu)
    (h1 : extract doc d = r1) (h2 : extract doc d = r2) : r1 = r2 :=
  h1.symm.trans h2

/-- C8 witness: two runs on `fullDoc` agree. -/
theorem extract_deterministic_witness :
    (Except.ok fullMenu : Except MenuError MensaMenu) = .ok fullMenu :=
  extract_deterministic fullDoc exDate (.ok fullMenu) (.ok fullMenu)
    (by decide) (by decide)

/-- C9: a document with no group-wrapper element extracts successfully to
a menu with the supplied date and no groups, and a group wrapper with a
label but no meal-marker elements extracts to a group with no meals —
absence of groups or meals is never an error. -/
theorem extract_absent_is_not_error (doc : List Node) (d : NaiveDate)
    (w lbl : Node) (ls : List Node)
    (h1 : selectMany mealListSel doc = [])
    (h2 : selectDesc groupNameSel w = lbl :: ls)
    (h3 : selectDesc mealSel w = []) :
    extract doc d = .ok ⟨d, []⟩ ∧
    extractGroup w = .ok ⟨inner_html lbl, []⟩ := by
  constructor
  · unfold extract
    rw [h1]
    rfl
  · unfold extractGroup
    rw [h2, h3]
    rfl

/-- A group wrapper holding only its label element. -/
def labelOnlyWrapper : Node :=
  .elem "div" [("class", "splGroupWrapper")]
    [.elem "div" [("class", "splGroup")] [.text "Soup"]]

/-- C9 witness: a document of plain text yields the empty menu, and the
meal-less wrapper yields a meal-less group. -/
theorem extract_absent_is_not_error_witness :
    extract [Node.text "hello"] exDate = .ok ⟨exDate, []⟩ ∧
    extractGroup labelOnlyWrapper =
      .ok ⟨inner_html (Node.elem "div" [("class", "splGroup")]
        [.text "Soup"]), []⟩ :=
  extract_absent_is_not_error [Node.text "hello"] exDate labelOnlyWrapper
    (.elem "div" [("class", "splGroup")] [.text "Soup"]) []
    rfl rfl rfl
